import Mathlib

/-!
Shallow embedding of the flowMC sampler orchestration
(src/src/flowMC/sampler/Sampler.py and src/nfsampler/utils.py).

Modelling conventions:
* jax/numpy arrays become nested lists over `ℚ`; a chains×steps×dim tensor is
  `List (List (List ℚ))` (outer index: chain, then step, then coordinate).
* Machine floats are modelled by `ℚ`; `jnp.sqrt` is not rational, so it is kept
  as an explicit collaborator function `sqrtQ : ℚ → ℚ` stored in the state, as
  are the local sampler, the global (flow) Metropolis sampler and the flow
  training loop, which the spec treats as external capabilities.
* Mutation of `self` becomes explicit state passing on `SamplerState`.
* Division `int(max_samples / n_chains)` is modelled by `Nat` floor division
  (exact for the magnitudes involved).
* `jnp.append`/`jnp.concatenate` with `axis=1` become `appendCols`; they require
  equal row counts in numpy, which theorems track through shape hypotheses.
* A ghost field `log : List PhaseEvent` and a ghost `RoundTrace` return value
  record which phases ran and which arguments were handed to the collaborators;
  they never influence the computation and have no counterpart in the Python
  state.
-/

namespace FlowMC

abbrev Vec := List ℚ
abbrev Mat := List Vec            -- points × dim, or chains × dim
abbrev Tens3 := List (List Vec)   -- chains × steps × dim
abbrev Tens2 := List (List ℚ)     -- chains × steps

/-- `jnp.append(a, b, axis=1)` / `jnp.concatenate((a, b), axis=1)`:
rowwise concatenation (numpy requires equal row counts). -/
def appendCols {α : Type} (a b : List (List α)) : List (List α) :=
  List.zipWith (fun r s => r ++ s) a b

/-- `positions[:, -1]`: the last step of each chain. -/
def lastCol (t : Tens3) : Mat := t.map (fun r => r.getLastD [])

/-- `jnp.max(row)` over one chain's log-probabilities. -/
def rowMax : List ℚ → ℚ
  | [] => 0
  | x :: xs => xs.foldl max x

/-- `jnp.quantile(xs, q)` with the default linear interpolation method:
sort ascending, take position `q * (n - 1)` and interpolate between the two
neighbouring order statistics. -/
def quantile (xs : List ℚ) (q : ℚ) : ℚ :=
  let s := List.insertionSort (fun a b => a ≤ b) xs
  match s with
  | [] => 0
  | _ :: _ =>
    let n := s.length
    let pos : ℚ := q * ((n : ℚ) - 1)
    let i : ℕ := pos.floor.toNat
    let lo := s.getD i 0
    let hi := s.getD (min (i + 1) (n - 1)) 0
    lo + (pos - (i : ℚ)) * (hi - lo)

/-- numpy boolean-mask indexing `xs[mask]`: keep the rows whose mask entry is
`true`. -/
def boolMask {α : Type} (xs : List α) (mask : List Bool) : List α :=
  ((xs.zip mask).filter (fun p => p.2)).map Prod.fst

/-- numpy slice `xs[-k:]`: the last `k` entries; for `k = 0` the slice `[0:]`
keeps the whole list (this mirrors `-0 == 0` in Python). -/
def takeLastSlice {α : Type} (k : ℕ) (xs : List α) : List α :=
  if k = 0 then xs else xs.drop (xs.length - k)

/-- `jnp.mean(m, axis=0)`: columnwise mean (division by zero yields `0` in `ℚ`
where numpy would produce `nan`; no claim touches that case). -/
def colMean (m : Mat) : Vec :=
  (List.transpose m).map (fun col => col.sum / (m.length : ℚ))

/-- `jnp.cov(m.T)`: covariance of the `d` coordinates over the `N` rows of `m`,
with the default `ddof = 1` normalisation (division by zero yields `0` in `ℚ`). -/
def covMat (m : Mat) : List Vec :=
  let mu := colMean m
  let cols := (List.transpose m).zip mu
  cols.map (fun ci =>
    cols.map (fun cj =>
      (((ci.1.zip cj.1).map (fun p => (p.1 - ci.2) * (p.2 - cj.2))).sum
        / ((m.length : ℚ) - 1))))

/-- `jnp.diag` of a square matrix. -/
def diagonal (m : List Vec) : Vec := m.enum.map (fun p => p.2.getD p.1 0)

/-- Flow variables: a frozen dict holding the normalisation statistics
`base_mean` / `base_cov` plus whatever other entries `nf_model.init` produced
(`rest`), which `unfreeze`/mutate/`freeze` leaves untouched. -/
structure Variables (VR : Type) where
  base_mean : Vec
  base_cov : List Vec
  rest : VR
deriving Repr

/-- `flax.training.train_state.TrainState`: trainable parameters plus the
optimizer bookkeeping. -/
structure TrainState (FP OPT : Type) where
  params : FP
  opt : OPT
deriving Repr

/-- Output tuple of `self.local_sampler(...)` (its fifth component is discarded
by `sampling_loop`, so it is not modelled). -/
structure LocalOut (KM : Type) where
  key : KM
  positions : Tens3
  log_prob : Tens2
  local_acceptance : Tens2

abbrev LocalSamplerT (KM SP : Type) := KM → ℕ → Mat → SP → LocalOut KM
abbrev GlobalSamplerT (KN FP VR : Type) :=
  KN → ℕ → FP → Variables VR → (Mat → List ℚ) → Mat →
    KN × Tens3 × Tens2 × Tens2 × Tens2
abbrev TrainingLoopT (KN FP OPT VR : Type) :=
  KN → TrainState FP OPT → Variables VR → Mat → ℕ → ℕ →
    KN × TrainState FP OPT × List ℚ
abbrev AutotuneT (KM SP : Type) :=
  LocalSamplerT KM SP → KM → ℕ → Mat → SP → ℕ → SP × LocalSamplerT KM SP

/-- The `summary['training']` accumulator (constructor lines 118-123). -/
structure TrainingSummary where
  chains : Tens3
  log_prob : Tens2
  local_accs : Tens2
  global_accs : Tens2
  loss_vals : List (List ℚ)

/-- The `summary['production']` accumulator (constructor lines 125-129);
it has no loss-history field. -/
structure ProductionSummary where
  chains : Tens3
  log_prob : Tens2
  local_accs : Tens2
  global_accs : Tens2

/-- The scalar configuration attributes of `Sampler.__init__`. -/
structure Config where
  n_dim : ℕ
  n_loop_training : ℕ
  n_loop_production : ℕ
  n_local_steps : ℕ
  n_global_steps : ℕ
  n_chains : ℕ
  n_epochs : ℕ
  learning_rate : ℚ
  max_samples : ℕ
  momentum : ℚ
  batch_size : ℕ
  use_global : Bool
  logging : Bool
  keep_quantile : ℚ

/-- Ghost phase markers for the orchestration order. -/
inductive PhaseEvent where
  | localTuning
  | trainingRound
  | productionRound
deriving DecidableEq, Repr

/-- The mutable attributes of a `Sampler` object.  Collaborator functions
(local sampler, global sampler, flow training loop, autotune, vectorised
likelihood, `jnp.sqrt`) are stored as fields exactly as the Python object
stores them; `log` is ghost instrumentation. -/
structure SamplerState (KM KN SP FP OPT VR : Type) where
  rng_keys_mcmc : KM
  rng_keys_nf : KN
  sampler_params : SP
  local_sampler : LocalSamplerT KM SP
  local_autotune : Option (AutotuneT KM SP)
  likelihood_vec : Mat → List ℚ
  global_sampler : GlobalSamplerT KN FP VR
  nf_training_loop : TrainingLoopT KN FP OPT VR
  sqrtQ : ℚ → ℚ
  state : TrainState FP OPT
  flow_variables : Variables VR
  summary_training : TrainingSummary
  summary_production : ProductionSummary
  cfg : Config
  log : List PhaseEvent

/-- Ghost record of what one `sampling_loop` round handed to the
collaborators: the local output, the `(variables, raw pool, standardized
batch)` given to the flow trainer, and the `(params, variables, start
positions)` given to the global sampler. -/
structure RoundTrace (FP VR : Type) where
  localPositions : Tens3
  localLogProb : Tens2
  trainCall : Option (Variables VR × Mat × Mat)
  globalCall : Option (FP × Variables VR × Mat)

section Orchestrator

variable {KM KN SP FP OPT VR : Type}

/-- Empty training accumulator of `__init__` lines 118-123 / `reset` lines
325-330: `jnp.empty((n_chains, 0, n_dim))` etc. -/
def emptyTraining (cfg : Config) : TrainingSummary :=
  { chains := List.replicate cfg.n_chains []
    log_prob := List.replicate cfg.n_chains []
    local_accs := List.replicate cfg.n_chains []
    global_accs := List.replicate cfg.n_chains []
    loss_vals := [] }

/-- Empty production accumulator of `__init__` lines 125-129 / `reset` lines
332-336. -/
def emptyProduction (cfg : Config) : ProductionSummary :=
  { chains := List.replicate cfg.n_chains []
    log_prob := List.replicate cfg.n_chains []
    local_accs := List.replicate cfg.n_chains []
    global_accs := List.replicate cfg.n_chains [] }

/-- Sample selection and capping, `sampling_loop` lines 181-186:
if `keep_quantile > 0`, keep the whole chains whose per-round maximum
log-probability strictly exceeds the `keep_quantile` quantile of all chains'
maxima, else keep every chain. -/
def cutChains (q : ℚ) (positions : Tens3) (log_prob_output : Tens2) : Tens3 :=
  if 0 < q then
    let max_log_prob := log_prob_output.map rowMax
    let cut := quantile max_log_prob q
    boolMask positions (max_log_prob.map (fun m => decide (cut < m)))
  else positions

/-- Pool flattening and the `max_samples` cap, `sampling_loop` lines 187-193.
`cut_chains.shape[1]` is the trailing step dimension, which numpy boolean
indexing inherits from `positions`, hence `(positions.headD []).length`;
`int(self.max_samples / self.n_chains)` is `Nat` floor division. -/
def retainedPool (cfg : Config) (positions : Tens3) (log_prob_output : Tens2) : Mat :=
  let cut_chains := cutChains cfg.keep_quantile positions log_prob_output
  let step_count := (positions.headD []).length
  let chain_size := cut_chains.length * step_count
  if cfg.max_samples < chain_size then
    (cut_chains.map (takeLastSlice (cfg.max_samples / cfg.n_chains))).flatten
  else
    cut_chains.flatten

/-- `(flat_chain - mean) / jnp.sqrt(jnp.diag(cov))`, line 200-202. -/
def standardizeWith (sq : ℚ → ℚ) (v : Variables VR) (m : Mat) : Mat :=
  let sd := (diagonal v.base_cov).map sq
  m.map (fun x => List.zipWith (fun xi p => (xi - p.1) / p.2) x (v.base_mean.zip sd))

/-- Lines 181-214 of `sampling_loop`: select and cap the pool, overwrite the
flow variables with its mean/covariance, standardize, run the flow training
loop and append the loss row.  Also returns the ghost
`(variables, pool, standardized batch)` handed to the trainer. -/
def trainStage (st : SamplerState KM KN SP FP OPT VR)
    (positions : Tens3) (log_prob_output : Tens2) :
    SamplerState KM KN SP FP OPT VR × (Variables VR × Mat × Mat) :=
  let flat_chain := retainedPool st.cfg positions log_prob_output
  let newVars : Variables VR :=
    { st.flow_variables with base_mean := colMean flat_chain, base_cov := covMat flat_chain }
  let flat2 := standardizeWith st.sqrtQ newVars flat_chain
  let t := st.nf_training_loop st.rng_keys_nf st.state newVars flat2
            st.cfg.n_epochs st.cfg.batch_size
  let st' := { st with
    flow_variables := newVars
    rng_keys_nf := t.1
    state := t.2.1
    summary_training := { st.summary_training with
      loss_vals := st.summary_training.loss_vals ++ [t.2.2] } }
  (st', (newVars, flat_chain, flat2))

/-- Lines 235-262 of `sampling_loop`: append the round's history to the
summary selected by the `training` flag; `global_acceptance` is appended only
when the global sampler ran (modelled by the `Option`). -/
def summaryStage (st : SamplerState KM KN SP FP OPT VR) (training : Bool)
    (positions : Tens3) (log_prob_output : Tens2) (local_acceptance : Tens2)
    (global_acceptance : Option Tens2) : SamplerState KM KN SP FP OPT VR :=
  if training then
    { st with summary_training := { st.summary_training with
        chains := appendCols st.summary_training.chains positions
        log_prob := appendCols st.summary_training.log_prob log_prob_output
        local_accs := appendCols st.summary_training.local_accs local_acceptance
        global_accs :=
          match global_acceptance with
          | some g => appendCols st.summary_training.global_accs g
          | none => st.summary_training.global_accs } }
  else
    { st with summary_production := { st.summary_production with
        chains := appendCols st.summary_production.chains positions
        log_prob := appendCols st.summary_production.log_prob log_prob_output
        local_accs := appendCols st.summary_production.local_accs local_acceptance
        global_accs :=
          match global_acceptance with
          | some g => appendCols st.summary_production.global_accs g
          | none => st.summary_production.global_accs } }

/-- `Sampler.sampling_loop(initial_position, training)`, lines 160-265:
local steps, then (if global sampling and training) flow retraining, then the
global Metropolis steps, then the summary appends; returns the new state, the
last position per chain (`positions[:, -1]`) and the ghost trace. -/
def sampling_loop (st : SamplerState KM KN SP FP OPT VR)
    (initial_position : Mat) (training : Bool) :
    SamplerState KM KN SP FP OPT VR × Mat × RoundTrace FP VR :=
  let lo := st.local_sampler st.rng_keys_mcmc st.cfg.n_local_steps
              initial_position st.sampler_params
  let st1 : SamplerState KM KN SP FP OPT VR :=
    { st with
      rng_keys_mcmc := lo.key
      log := st.log ++
        [if training then PhaseEvent.trainingRound else PhaseEvent.productionRound] }
  if st.cfg.use_global then
    let st2 := if training then (trainStage st1 lo.positions lo.log_prob).1 else st1
    let trainTr :=
      if training then some (trainStage st1 lo.positions lo.log_prob).2 else none
    let g := st2.global_sampler st2.rng_keys_nf st2.cfg.n_global_steps
              st2.state.params st2.flow_variables st2.likelihood_vec (lastCol lo.positions)
    let st3 : SamplerState KM KN SP FP OPT VR := { st2 with rng_keys_nf := g.1 }
    let positions2 := appendCols lo.positions g.2.1
    let lp2 := appendCols lo.log_prob g.2.2.1
    let st4 := summaryStage st3 training positions2 lp2 lo.local_acceptance
                 (some g.2.2.2.2)
    (st4, lastCol positions2,
      { localPositions := lo.positions, localLogProb := lo.log_prob
        trainCall := trainTr
        globalCall := some (st2.state.params, st2.flow_variables, lastCol lo.positions) })
  else
    let st4 := summaryStage st1 training lo.positions lo.log_prob
                 lo.local_acceptance none
    (st4, lastCol lo.positions,
      { localPositions := lo.positions, localLogProb := lo.log_prob
        trainCall := none, globalCall := none })

/-- `Sampler.local_sampler_tuning(n_steps, initial_position, max_iter=10)`,
lines 267-284: if an autotune capability is present it replaces
`sampler_params` and `local_sampler`, otherwise nothing changes (the `print`
calls are I/O only).  The ghost log records that the phase ran. -/
def local_sampler_tuning (st : SamplerState KM KN SP FP OPT VR)
    (n_steps : ℕ) (initial_position : Mat) (max_iter : ℕ := 10) :
    SamplerState KM KN SP FP OPT VR :=
  match st.local_autotune with
  | some tune =>
    let r := tune st.local_sampler st.rng_keys_mcmc n_steps initial_position
               st.sampler_params max_iter
    { st with sampler_params := r.1, local_sampler := r.2
              log := st.log ++ [PhaseEvent.localTuning] }
  | none => { st with log := st.log ++ [PhaseEvent.localTuning] }

/-- The `for _ in range(self.n_loop_training)` loop of `global_sampler_tuning`
(lines 298-301): each round's returned last position seeds the next round.
The ghost list records each round's (received initial position, returned last
position) pair. -/
def tuningRoundsT : ℕ → SamplerState KM KN SP FP OPT VR → Mat →
    SamplerState KM KN SP FP OPT VR × Mat × List (Mat × Mat)
  | 0, st, last_step => (st, last_step, [])
  | n + 1, st, last_step =>
    let w := sampling_loop st last_step true
    let r := tuningRoundsT n w.1 w.2.1
    (r.1, r.2.1, (last_step, w.2.1) :: r.2.2)

/-- `Sampler.global_sampler_tuning(initial_position)`, lines 286-301. -/
def global_sampler_tuning (st : SamplerState KM KN SP FP OPT VR)
    (initial_position : Mat) : SamplerState KM KN SP FP OPT VR × Mat :=
  ((tuningRoundsT st.cfg.n_loop_training st initial_position).1,
   (tuningRoundsT st.cfg.n_loop_training st initial_position).2.1)

/-- The `for _ in range(self.n_loop_production)` loop of `production_run`
(lines 304-306).  Note the slip preserved from the source: the body calls
`self.sampling_loop(last_step)` and discards its result, so `last_step` is
never updated and every round receives the same initial position. -/
def productionRoundsT : ℕ → SamplerState KM KN SP FP OPT VR → Mat →
    SamplerState KM KN SP FP OPT VR × List (Mat × Mat)
  | 0, st, _ => (st, [])
  | n + 1, st, last_step =>
    let w := sampling_loop st last_step false
    let r := productionRoundsT n w.1 last_step
    (r.1, (last_step, w.2.1) :: r.2)

/-- `Sampler.production_run(initial_position)`, lines 303-306 (the Python
method returns `None`; the mutated object is the state returned here). -/
def production_run (st : SamplerState KM KN SP FP OPT VR)
    (initial_position : Mat) : SamplerState KM KN SP FP OPT VR :=
  (productionRoundsT st.cfg.n_loop_production st initial_position).1

/-- `Sampler.sample(initial_position)`, lines 135-158: local tuning, then the
global tuning phase when `use_global`, then the production phase.  (Line 158
binds `production_run`'s `None` return to `last_step`, which is never used.) -/
def sample (st : SamplerState KM KN SP FP OPT VR) (initial_position : Mat) :
    SamplerState KM KN SP FP OPT VR :=
  let st1 := local_sampler_tuning st st.cfg.n_local_steps initial_position 10
  if st1.cfg.use_global then
    let w := global_sampler_tuning st1 initial_position
    production_run w.1 w.2
  else
    production_run st1 initial_position

/-- `Sampler.get_sampler_state(training)`, lines 308-312, as the pair of
accumulators it selects from. -/
def get_sampler_state (st : SamplerState KM KN SP FP OPT VR) (training : Bool) :
    TrainingSummary ⊕ ProductionSummary :=
  if training then Sum.inl st.summary_training else Sum.inr st.summary_production

/-- `Sampler.reset()`, lines 324-340: rebuild both summaries empty, touch
nothing else. -/
def reset (st : SamplerState KM KN SP FP OPT VR) :
    SamplerState KM KN SP FP OPT VR :=
  { st with
    summary_training := emptyTraining st.cfg
    summary_production := emptyProduction st.cfg }

/-- The result of `nf_model.init(init_rng_keys_nf, jnp.ones((1, n_dim)))`:
a dict with `"params"` and `"variables"` entries. -/
structure NFInit (FP VR : Type) where
  params : FP
  variables_out : Variables VR

/-- `Sampler.__init__`, lines 52-133.  External constructions are taken as
arguments: `local_sampler_maker likelihood` models
`self.local_sampler = local_sampler(likelihood)`, `likelihood_vec` models
`jax.jit(jax.vmap(likelihood))`, `nf_init` models `nf_model.init` already
applied to the fixed `jnp.ones((1, n_dim))` shape argument, `training_loop`
and `global_sampler` model `make_training_loop(nf_model)` and
`make_nf_metropolis_sampler(nf_model)`, and `opt_state` the freshly created
`optax.adam` optimizer state.  Lines 104-105 of the source read
`if nf_variable is not None: self.variables = self.variables`, transcribed
verbatim below. -/
def mkSampler (cfg : Config)
    (rng_keys_mcmc : KM) (rng_keys_nf : KN) (init_rng_keys_nf : KI)
    (local_sampler_maker : (Vec → ℚ) → LocalSamplerT KM SP)
    (sampler_params : SP) (likelihood : Vec → ℚ) (likelihood_vec : Mat → List ℚ)
    (nf_init : KI → ℕ × ℕ → NFInit FP VR)
    (training_loop : TrainingLoopT KN FP OPT VR)
    (global_sampler : GlobalSamplerT KN FP VR)
    (sqrtQ : ℚ → ℚ) (opt_state : OPT)
    (nf_variable : Option (Variables VR))
    (local_autotune : Option (AutotuneT KM SP)) :
    SamplerState KM KN SP FP OPT VR :=
  let model_init := nf_init init_rng_keys_nf (1, cfg.n_dim)
  let params := model_init.params
  let variables0 := model_init.variables_out
  -- `self.variables = model_init["variables"]`
  -- `if nf_variable is not None: self.variables = self.variables`
  let variables1 := if nf_variable.isSome then variables0 else variables0
  { rng_keys_mcmc := rng_keys_mcmc
    rng_keys_nf := rng_keys_nf
    sampler_params := sampler_params
    local_sampler := local_sampler_maker likelihood
    local_autotune := local_autotune
    likelihood_vec := likelihood_vec
    global_sampler := global_sampler
    nf_training_loop := training_loop
    sqrtQ := sqrtQ
    state := { params := params, opt := opt_state }
    flow_variables := variables1
    summary_training := emptyTraining cfg
    summary_production := emptyProduction cfg
    cfg := cfg
    log := [] }

end Orchestrator

/-- The `jax.random` primitives used by `initialize_rng_keys`
(src/nfsampler/utils.py); they are an external library, modelled abstractly. -/
structure JaxRandom (K : Type) where
  PRNGKey : ℕ → K
  split2 : K → K × K
  split3 : K → K × K × K
  splitN : K → ℕ → List K

/-- `initialize_rng_keys(n_chains, seed=42)`, src/nfsampler/utils.py lines
9-30: split the seed key into the init/mcmc/nf keys, a per-chain mcmc key
array, and the nf sampling/initialization pair. -/
def initialize_rng_keys {K : Type} (J : JaxRandom K) (n_chains : ℕ)
    (seed : ℕ := 42) : K × List K × K × K :=
  let rng_key := J.PRNGKey seed
  let s3 := J.split3 rng_key
  let rng_keys_mcmc := J.splitN s3.2.1 n_chains
  let s2 := J.split2 s3.2.2
  (s3.1, rng_keys_mcmc, s2.1, s2.2)

/-! ### Shape predicates and collaborator contracts -/

/-- `t` is a `r × c` array. -/
def Rect2 (t : Tens2) (r c : ℕ) : Prop :=
  t.length = r ∧ ∀ row ∈ t, row.length = c

/-- `t` is a `r × c × d` array. -/
def Rect3 (t : Tens3) (r c d : ℕ) : Prop :=
  t.length = r ∧ ∀ row ∈ t, row.length = c ∧ ∀ v ∈ row, v.length = d

section Contracts

variable {KM KN SP FP OPT VR : Type}

/-- Contract of the local sampler (spec §4.2): for `n` requested steps it
returns `n_chains × n × n_dim` positions and `n_chains × n` log-probability
and acceptance tables. -/
def LocalContract (cfg : Config) (ls : LocalSamplerT KM SP) : Prop :=
  ∀ k n p sp,
    Rect3 (ls k n p sp).positions cfg.n_chains n cfg.n_dim ∧
    Rect2 (ls k n p sp).log_prob cfg.n_chains n ∧
    Rect2 (ls k n p sp).local_acceptance cfg.n_chains n

/-- Contract of the global (flow Metropolis) sampler (spec §4.5). -/
def GlobalContract (cfg : Config) (gs : GlobalSamplerT KN FP VR) : Prop :=
  ∀ k n fp v lh p,
    Rect3 (gs k n fp v lh p).2.1 cfg.n_chains n cfg.n_dim ∧
    Rect2 (gs k n fp v lh p).2.2.1 cfg.n_chains n ∧
    Rect2 (gs k n fp v lh p).2.2.2.2 cfg.n_chains n

/-- Contract of the flow training loop (spec §4.4): the loss history has one
entry per epoch. -/
def TrainContract (tl : TrainingLoopT KN FP OPT VR) : Prop :=
  ∀ k s v fc ne bs, ((tl k s v fc ne bs).2.2).length = ne

end Contracts

/-! ### Concrete instantiations used to evaluate the embedding -/

/-- A configuration with global sampling disabled and two production rounds. -/
def cfgNoGlobal : Config :=
  { n_dim := 1, n_loop_training := 1, n_loop_production := 2, n_local_steps := 1
    n_global_steps := 1, n_chains := 1, n_epochs := 1, learning_rate := 1/100
    max_samples := 10, momentum := 9/10, batch_size := 1, use_global := false
    logging := true, keep_quantile := 0 }

/-- A local sampler that moves every chain to the constant position `1` in one
step (so a round started from `[[0]]` visibly returns a different last
position than it received). -/
def shiftLocal : LocalSamplerT ℕ Unit := fun k _ p _ =>
  { key := k + 1
    positions := p.map (fun v => [v.map (fun _ => 1)])
    log_prob := p.map (fun _ => [0])
    local_acceptance := p.map (fun _ => [0]) }

/-- A global sampler emitting constant chains of the requested step count
(one chain, one dimension). -/
def constGlobal : GlobalSamplerT ℕ ℕ Unit := fun k n _ _ _ _ =>
  (k, [List.replicate n [0]], [List.replicate n 0], [List.replicate n 0],
   [List.replicate n 0])

/-- A training loop that keeps the state and returns one loss per epoch. -/
def constTrain : TrainingLoopT ℕ ℕ Unit Unit := fun k s _ _ ne _ =>
  (k, s, List.replicate ne 0)

/-- A local sampler emitting constant chains of the requested step count
(one chain, one dimension). -/
def constLocal : LocalSamplerT ℕ Unit := fun k n _ _ =>
  { key := k
    positions := [List.replicate n [0]]
    log_prob := [List.replicate n 0]
    local_acceptance := [List.replicate n 0] }

/-- Sampler state for the no-global configuration. -/
def stNoGlobal : SamplerState ℕ ℕ Unit ℕ Unit Unit :=
  { rng_keys_mcmc := 0, rng_keys_nf := 0, sampler_params := ()
    local_sampler := shiftLocal, local_autotune := none
    likelihood_vec := fun _ => [], global_sampler := constGlobal
    nf_training_loop := constTrain, sqrtQ := fun x => x
    state := { params := 7, opt := () }
    flow_variables := { base_mean := [0], base_cov := [[1]], rest := () }
    summary_training := emptyTraining cfgNoGlobal
    summary_production := emptyProduction cfgNoGlobal
    cfg := cfgNoGlobal, log := [] }

/-- A one-chain, one-dimensional configuration with global sampling enabled. -/
def cfgG : Config :=
  { n_dim := 1, n_loop_training := 1, n_loop_production := 1, n_local_steps := 1
    n_global_steps := 1, n_chains := 1, n_epochs := 1, learning_rate := 1/100
    max_samples := 10, momentum := 9/10, batch_size := 1, use_global := true
    logging := true, keep_quantile := 0 }

/-- Sampler state for `cfgG`, built through the constructor. -/
def stG : SamplerState ℕ ℕ Unit ℕ Unit Unit :=
  mkSampler cfgG 1 2 (3 : ℕ) (fun _ => constLocal) () (fun _ => 0) (fun _ => [])
    (fun _ _ => { params := 7
                  variables_out := { base_mean := [0], base_cov := [[1]], rest := () } })
    constTrain constGlobal (fun x => x) () none none

/-- A concrete deterministic stand-in for the `jax.random` primitives. -/
def toyJ : JaxRandom ℕ :=
  { PRNGKey := fun s => s
    split2 := fun k => (k, k + 1)
    split3 := fun k => (k, k + 1, k + 2)
    splitN := fun k n => (List.range n).map (fun i => k + i) }

/-- The configuration of the C4 counterexample: more chains than
`max_samples`, so `int(max_samples / n_chains) = 0` and the numpy slice
`[:, -0:]` keeps the whole history. -/
def cfgX : Config :=
  { n_dim := 1, n_loop_training := 1, n_loop_production := 1, n_local_steps := 1
    n_global_steps := 1, n_chains := 5, n_epochs := 1, learning_rate := 1/100
    max_samples := 3, momentum := 9/10, batch_size := 1, use_global := true
    logging := true, keep_quantile := 0 }

/-- Five chains, one local step, one dimension. -/
def posX : Tens3 := [[[0]], [[1]], [[2]], [[3]], [[4]]]

/-- Matching log-probability table. -/
def lpX : Tens2 := [[0], [0], [0], [0], [0]]

/-- A configuration where the cap is enforceable: `n_chains = 2` divides into
`max_samples = 3` with quotient `1`. -/
def cfgW : Config :=
  { n_dim := 1, n_loop_training := 1, n_loop_production := 1, n_local_steps := 2
    n_global_steps := 1, n_chains := 2, n_epochs := 1, learning_rate := 1/100
    max_samples := 3, momentum := 9/10, batch_size := 1, use_global := true
    logging := true, keep_quantile := 0 }

/-- Two chains, two local steps, one dimension (pool of 4 > `max_samples`). -/
def posW : Tens3 := [[[0], [0]], [[1], [1]]]

/-- Matching log-probability table. -/
def lpW : Tens2 := [[0, 0], [0, 0]]

/-! ### Helper lemmas -/

theorem rect3_replicate_nil (r d : ℕ) :
    Rect3 (List.replicate r ([] : List Vec)) r 0 d := by
  refine ⟨List.length_replicate r [], ?_⟩
  intro row hrow
  rcases List.eq_of_mem_replicate hrow with rfl
  exact ⟨rfl, by intro v hv; cases hv⟩

theorem appendCols_rect2 : ∀ (a b : Tens2) (r c₁ c₂ : ℕ),
    Rect2 a r c₁ → Rect2 b r c₂ → Rect2 (appendCols a b) r (c₁ + c₂) := by
  intro a
  induction a with
  | nil =>
    intro b r c₁ c₂ ha hb
    rcases ha with ⟨hl, _⟩
    subst hl
    rcases hb with ⟨hl', _⟩
    have hb0 : b = [] := List.length_eq_zero.mp (by simpa using hl')
    subst hb0
    exact ⟨rfl, by intro row h; cases h⟩
  | cons x xs ih =>
    intro b r c₁ c₂ ha hb
    rcases ha with ⟨hl, hrow⟩
    cases b with
    | nil => rcases hb with ⟨hl', _⟩; simp [← hl] at hl'
    | cons y ys =>
      rcases hb with ⟨hl', hrow'⟩
      cases r with
      | zero => simp at hl
      | succ r' =>
        have hxs : Rect2 xs r' c₁ :=
          ⟨by simpa using hl, fun row h => hrow row (List.mem_cons_of_mem _ h)⟩
        have hys : Rect2 ys r' c₂ :=
          ⟨by simpa using hl', fun row h => hrow' row (List.mem_cons_of_mem _ h)⟩
        have hrec := ih ys r' c₁ c₂ hxs hys
        refine ⟨by simpa [appendCols] using hrec.1, ?_⟩
        intro row hmem
        rcases List.mem_cons.mp hmem with h | h
        · subst h
          rw [List.length_append, hrow x (List.mem_cons_self x xs),
            hrow' y (List.mem_cons_self y ys)]
        · exact hrec.2 row h

theorem appendCols_rect3 : ∀ (a b : Tens3) (r c₁ c₂ d : ℕ),
    Rect3 a r c₁ d → Rect3 b r c₂ d → Rect3 (appendCols a b) r (c₁ + c₂) d := by
  intro a
  induction a with
  | nil =>
    intro b r c₁ c₂ d ha hb
    rcases ha with ⟨hl, _⟩
    subst hl
    rcases hb with ⟨hl', _⟩
    have hb0 : b = [] := List.length_eq_zero.mp (by simpa using hl')
    subst hb0
    exact ⟨rfl, by intro row h; cases h⟩
  | cons x xs ih =>
    intro b r c₁ c₂ d ha hb
    rcases ha with ⟨hl, hrow⟩
    cases b with
    | nil => rcases hb with ⟨hl', _⟩; simp [← hl] at hl'
    | cons y ys =>
      rcases hb with ⟨hl', hrow'⟩
      cases r with
      | zero => simp at hl
      | succ r' =>
        have hxs : Rect3 xs r' c₁ d :=
          ⟨by simpa using hl, fun row h => hrow row (List.mem_cons_of_mem _ h)⟩
        have hys : Rect3 ys r' c₂ d :=
          ⟨by simpa using hl', fun row h => hrow' row (List.mem_cons_of_mem _ h)⟩
        have hrec := ih ys r' c₁ c₂ d hxs hys
        refine ⟨by simpa [appendCols] using hrec.1, ?_⟩
        intro row hmem
        rcases List.mem_cons.mp hmem with h | h
        · subst h
          have hx := hrow x (List.mem_cons_self x xs)
          have hy := hrow' y (List.mem_cons_self y ys)
          refine ⟨by rw [List.length_append, hx.1, hy.1], ?_⟩
          intro v hv
          rcases List.mem_append.mp hv with h' | h'
          · exact hx.2 v h'
          · exact hy.2 v h'
        · exact hrec.2 row h

section RoundLemmas

variable {KM KN SP FP OPT VR : Type}

theorem sampling_loop_preserves (st : SamplerState KM KN SP FP OPT VR)
    (p : Mat) (b : Bool) :
    (sampling_loop st p b).1.cfg = st.cfg ∧
    (sampling_loop st p b).1.local_sampler = st.local_sampler ∧
    (sampling_loop st p b).1.global_sampler = st.global_sampler ∧
    (sampling_loop st p b).1.nf_training_loop = st.nf_training_loop ∧
    (sampling_loop st p b).1.local_autotune = st.local_autotune ∧
    (sampling_loop st p b).1.sampler_params = st.sampler_params ∧
    (sampling_loop st p b).1.sqrtQ = st.sqrtQ ∧
    (sampling_loop st p b).1.likelihood_vec = st.likelihood_vec := by
  cases hg : st.cfg.use_global <;> cases b <;>
    simp [sampling_loop, trainStage, summaryStage, hg]

theorem sampling_loop_log (st : SamplerState KM KN SP FP OPT VR)
    (p : Mat) (b : Bool) :
    (sampling_loop st p b).1.log = st.log ++
      [if b then PhaseEvent.trainingRound else PhaseEvent.productionRound] := by
  cases hg : st.cfg.use_global <;> cases b <;>
    simp [sampling_loop, trainStage, summaryStage, hg]

/-- A production round (`training=false`) leaves the flow parameters, the flow
variables and the training summary untouched. -/
theorem sampling_loop_false_frame (st : SamplerState KM KN SP FP OPT VR)
    (p : Mat) :
    (sampling_loop st p false).1.state = st.state ∧
    (sampling_loop st p false).1.flow_variables = st.flow_variables ∧
    (sampling_loop st p false).1.summary_training = st.summary_training := by
  cases hg : st.cfg.use_global <;>
    simp [sampling_loop, trainStage, summaryStage, hg]

/-- One training round with global sampling: the training chains gain
`n_local_steps + n_global_steps` columns, the loss history gains one row of
`n_epochs` losses, and the production summary is untouched. -/
theorem sampling_loop_train_step (st : SamplerState KM KN SP FP OPT VR) (p : Mat)
    (hg : st.cfg.use_global = true)
    (hL : LocalContract st.cfg st.local_sampler)
    (hG : GlobalContract st.cfg st.global_sampler)
    (hT : TrainContract st.nf_training_loop)
    {t : ℕ} (hc : Rect3 st.summary_training.chains st.cfg.n_chains t st.cfg.n_dim) :
    Rect3 (sampling_loop st p true).1.summary_training.chains st.cfg.n_chains
        (t + (st.cfg.n_local_steps + st.cfg.n_global_steps)) st.cfg.n_dim
    ∧ (sampling_loop st p true).1.summary_training.loss_vals.length
        = st.summary_training.loss_vals.length + 1
    ∧ ((∀ r ∈ st.summary_training.loss_vals, r.length = st.cfg.n_epochs) →
        ∀ r ∈ (sampling_loop st p true).1.summary_training.loss_vals,
          r.length = st.cfg.n_epochs)
    ∧ (sampling_loop st p true).1.summary_production = st.summary_production := by
  have hlo := hL st.rng_keys_mcmc st.cfg.n_local_steps p st.sampler_params
  refine ⟨?_, ?_, ?_, ?_⟩ <;>
    simp only [sampling_loop, trainStage, summaryStage, hg, if_true, ite_true]
  · exact appendCols_rect3 _ _ _ _ _ _ hc
      (appendCols_rect3 _ _ _ _ _ _ hlo.1
        (hG _ _ _ _ _ _).1)
  · simp
  · intro hold r hr
    simp at hr
    rcases hr with hr | hr
    · exact hold r hr
    · subst hr; exact hT _ _ _ _ _ _

/-- One production round with global sampling: the production chains gain
`n_local_steps + n_global_steps` columns. -/
theorem sampling_loop_prod_step (st : SamplerState KM KN SP FP OPT VR) (p : Mat)
    (hg : st.cfg.use_global = true)
    (hL : LocalContract st.cfg st.local_sampler)
    (hG : GlobalContract st.cfg st.global_sampler)
    {t : ℕ}
    (hc : Rect3 st.summary_production.chains st.cfg.n_chains t st.cfg.n_dim) :
    Rect3 (sampling_loop st p false).1.summary_production.chains st.cfg.n_chains
        (t + (st.cfg.n_local_steps + st.cfg.n_global_steps)) st.cfg.n_dim := by
  have hlo := hL st.rng_keys_mcmc st.cfg.n_local_steps p st.sampler_params
  simp only [sampling_loop, trainStage, summaryStage, hg, if_true, ite_true,
    Bool.false_eq_true, if_false, ite_false]
  exact appendCols_rect3 _ _ _ _ _ _ hc
    (appendCols_rect3 _ _ _ _ _ _ hlo.1 (hG _ _ _ _ _ _).1)

theorem tuningRoundsT_preserves :
    ∀ (n : ℕ) (st : SamplerState KM KN SP FP OPT VR) (p : Mat),
    (tuningRoundsT n st p).1.cfg = st.cfg ∧
    (tuningRoundsT n st p).1.local_sampler = st.local_sampler ∧
    (tuningRoundsT n st p).1.global_sampler = st.global_sampler ∧
    (tuningRoundsT n st p).1.nf_training_loop = st.nf_training_loop ∧
    (tuningRoundsT n st p).1.local_autotune = st.local_autotune := by
  intro n
  induction n with
  | zero => intro st p; exact ⟨rfl, rfl, rfl, rfl, rfl⟩
  | succ n ih =>
    intro st p
    have hw := sampling_loop_preserves st p true
    have hr := ih (sampling_loop st p true).1 (sampling_loop st p true).2.1
    simp only [tuningRoundsT]
    exact ⟨hr.1.trans hw.1, hr.2.1.trans hw.2.1, hr.2.2.1.trans hw.2.2.1,
      hr.2.2.2.1.trans hw.2.2.2.1, hr.2.2.2.2.trans hw.2.2.2.2.1⟩

theorem productionRoundsT_preserves :
    ∀ (n : ℕ) (st : SamplerState KM KN SP FP OPT VR) (p : Mat),
    (productionRoundsT n st p).1.cfg = st.cfg ∧
    (productionRoundsT n st p).1.local_sampler = st.local_sampler ∧
    (productionRoundsT n st p).1.global_sampler = st.global_sampler ∧
    (productionRoundsT n st p).1.nf_training_loop = st.nf_training_loop ∧
    (productionRoundsT n st p).1.local_autotune = st.local_autotune := by
  intro n
  induction n with
  | zero => intro st p; exact ⟨rfl, rfl, rfl, rfl, rfl⟩
  | succ n ih =>
    intro st p
    have hw := sampling_loop_preserves st p false
    have hr := ih (sampling_loop st p false).1 p
    simp only [productionRoundsT]
    exact ⟨hr.1.trans hw.1, hr.2.1.trans hw.2.1, hr.2.2.1.trans hw.2.2.1,
      hr.2.2.2.1.trans hw.2.2.2.1, hr.2.2.2.2.trans hw.2.2.2.2.1⟩

theorem tuningRoundsT_log :
    ∀ (n : ℕ) (st : SamplerState KM KN SP FP OPT VR) (p : Mat),
    (tuningRoundsT n st p).1.log
      = st.log ++ List.replicate n PhaseEvent.trainingRound := by
  intro n
  induction n with
  | zero => intro st p; simp [tuningRoundsT]
  | succ n ih =>
    intro st p
    have hw := sampling_loop_log st p true
    simp only [tuningRoundsT]
    rw [ih, hw]
    simp [List.replicate_succ]

theorem productionRoundsT_log :
    ∀ (n : ℕ) (st : SamplerState KM KN SP FP OPT VR) (p : Mat),
    (productionRoundsT n st p).1.log
      = st.log ++ List.replicate n PhaseEvent.productionRound := by
  intro n
  induction n with
  | zero => intro st p; simp [productionRoundsT]
  | succ n ih =>
    intro st p
    have hw := sampling_loop_log st p false
    simp only [productionRoundsT]
    rw [ih, hw]
    simp [List.replicate_succ]

/-- Across the training phase, chains gain `n · (n_local_steps + n_global_steps)`
columns, the loss history gains `n` rows of `n_epochs` losses, and the
production summary is untouched. -/
theorem tuningRoundsT_props :
    ∀ (n : ℕ) (st : SamplerState KM KN SP FP OPT VR) (p : Mat) (t m : ℕ),
    st.cfg.use_global = true →
    LocalContract st.cfg st.local_sampler →
    GlobalContract st.cfg st.global_sampler →
    TrainContract st.nf_training_loop →
    Rect3 st.summary_training.chains st.cfg.n_chains t st.cfg.n_dim →
    st.summary_training.loss_vals.length = m →
    (∀ r ∈ st.summary_training.loss_vals, r.length = st.cfg.n_epochs) →
    Rect3 (tuningRoundsT n st p).1.summary_training.chains st.cfg.n_chains
        (t + n * (st.cfg.n_local_steps + st.cfg.n_global_steps)) st.cfg.n_dim
    ∧ (tuningRoundsT n st p).1.summary_training.loss_vals.length = m + n
    ∧ (∀ r ∈ (tuningRoundsT n st p).1.summary_training.loss_vals,
        r.length = st.cfg.n_epochs)
    ∧ (tuningRoundsT n st p).1.summary_production = st.summary_production := by
  intro n
  induction n with
  | zero =>
    intro st p t m hg hL hG hT hc hm hloss
    refine ⟨?_, ?_, ?_, rfl⟩
    · simpa [tuningRoundsT] using hc
    · simpa [tuningRoundsT] using hm
    · simpa [tuningRoundsT] using hloss
  | succ n ih =>
    intro st p t m hg hL hG hT hc hm hloss
    have hstep := sampling_loop_train_step st p hg hL hG hT hc
    have hpres := sampling_loop_preserves st p true
    set st' := (sampling_loop st p true).1 with hst'
    have hg' : st'.cfg.use_global = true := by rw [hpres.1]; exact hg
    have hL' : LocalContract st'.cfg st'.local_sampler := by
      rw [hpres.1, hpres.2.1]; exact hL
    have hG' : GlobalContract st'.cfg st'.global_sampler := by
      rw [hpres.1, hpres.2.2.1]; exact hG
    have hT' : TrainContract st'.nf_training_loop := by
      rw [hpres.2.2.2.1]; exact hT
    have hc' : Rect3 st'.summary_training.chains st'.cfg.n_chains
        (t + (st.cfg.n_local_steps + st.cfg.n_global_steps)) st'.cfg.n_dim := by
      rw [hpres.1]; exact hstep.1
    have hm' : st'.summary_training.loss_vals.length = m + 1 := by
      rw [hstep.2.1, hm]
    have hloss' : ∀ r ∈ st'.summary_training.loss_vals,
        r.length = st'.cfg.n_epochs := by
      rw [hpres.1]; exact hstep.2.2.1 hloss
    have hrec := ih st' (sampling_loop st p true).2.1
      (t + (st.cfg.n_local_steps + st.cfg.n_global_steps)) (m + 1)
      hg' hL' hG' hT' hc' hm' hloss'
    simp only [tuningRoundsT]
    rw [hpres.1] at hrec
    refine ⟨?_, ?_, hrec.2.2.1, hrec.2.2.2.trans hstep.2.2.2⟩
    · have harith :
        t + (st.cfg.n_local_steps + st.cfg.n_global_steps)
          + n * (st.cfg.n_local_steps + st.cfg.n_global_steps)
        = t + (n + 1) * (st.cfg.n_local_steps + st.cfg.n_global_steps) := by
        ring
      rw [← harith]
      exact hrec.1
    · rw [hrec.2.1]; omega

/-- Across the production phase, production chains gain
`n · (n_local_steps + n_global_steps)` columns and the training summary is
untouched. -/
theorem productionRoundsT_props :
    ∀ (n : ℕ) (st : SamplerState KM KN SP FP OPT VR) (p : Mat) (t : ℕ),
    st.cfg.use_global = true →
    LocalContract st.cfg st.local_sampler →
    GlobalContract st.cfg st.global_sampler →
    Rect3 st.summary_production.chains st.cfg.n_chains t st.cfg.n_dim →
    Rect3 (productionRoundsT n st p).1.summary_production.chains st.cfg.n_chains
        (t + n * (st.cfg.n_local_steps + st.cfg.n_global_steps)) st.cfg.n_dim
    ∧ (productionRoundsT n st p).1.summary_training = st.summary_training := by
  intro n
  induction n with
  | zero =>
    intro st p t hg hL hG hc
    refine ⟨?_, rfl⟩
    simpa [productionRoundsT] using hc
  | succ n ih =>
    intro st p t hg hL hG hc
    have hstep := sampling_loop_prod_step st p hg hL hG hc
    have hframe := sampling_loop_false_frame st p
    have hpres := sampling_loop_preserves st p false
    set st' := (sampling_loop st p false).1 with hst'
    have hg' : st'.cfg.use_global = true := by rw [hpres.1]; exact hg
    have hL' : LocalContract st'.cfg st'.local_sampler := by
      rw [hpres.1, hpres.2.1]; exact hL
    have hG' : GlobalContract st'.cfg st'.global_sampler := by
      rw [hpres.1, hpres.2.2.1]; exact hG
    have hc' : Rect3 st'.summary_production.chains st'.cfg.n_chains
        (t + (st.cfg.n_local_steps + st.cfg.n_global_steps)) st'.cfg.n_dim := by
      rw [hpres.1]; exact hstep
    have hrec := ih st' p
      (t + (st.cfg.n_local_steps + st.cfg.n_global_steps)) hg' hL' hG' hc'
    simp only [productionRoundsT]
    rw [hpres.1] at hrec
    refine ⟨?_, hrec.2.trans hframe.2.2⟩
    have harith :
        t + (st.cfg.n_local_steps + st.cfg.n_global_steps)
          + n * (st.cfg.n_local_steps + st.cfg.n_global_steps)
        = t + (n + 1) * (st.cfg.n_local_steps + st.cfg.n_global_steps) := by
      ring
    rw [← harith]
    exact hrec.1

theorem local_sampler_tuning_props (st : SamplerState KM KN SP FP OPT VR)
    (n : ℕ) (p : Mat) (mi : ℕ) :
    (local_sampler_tuning st n p mi).cfg = st.cfg ∧
    (local_sampler_tuning st n p mi).log = st.log ++ [PhaseEvent.localTuning] ∧
    (local_sampler_tuning st n p mi).summary_training = st.summary_training ∧
    (local_sampler_tuning st n p mi).summary_production = st.summary_production ∧
    (local_sampler_tuning st n p mi).global_sampler = st.global_sampler ∧
    (local_sampler_tuning st n p mi).nf_training_loop = st.nf_training_loop ∧
    (local_sampler_tuning st n p mi).state = st.state ∧
    (local_sampler_tuning st n p mi).flow_variables = st.flow_variables := by
  cases h : st.local_autotune <;> simp [local_sampler_tuning, h]

theorem local_sampler_tuning_contract (st : SamplerState KM KN SP FP OPT VR)
    (n : ℕ) (p : Mat) (mi : ℕ)
    (hL : LocalContract st.cfg st.local_sampler)
    (hA : ∀ f, st.local_autotune = some f →
        ∀ ls k m q sp j, LocalContract st.cfg (f ls k m q sp j).2) :
    LocalContract st.cfg (local_sampler_tuning st n p mi).local_sampler := by
  cases h : st.local_autotune with
  | none => simpa [local_sampler_tuning, h] using hL
  | some f => simpa [local_sampler_tuning, h] using hA f h _ _ _ _ _ _

end RoundLemmas

/-! ### The claims -/

section Claims

variable {KM KN SP FP OPT VR : Type}

/-- C1 (code_bug evidence): one production round does return the round's last
position per chain (`[[1]]`, not the initial `[[0]]`), but with
`n_loop_production = 2` the recorded (received, returned) pairs show that the
second round received the original `[[0]]` rather than the `[[1]]` the first
round returned: `production_run` never carries `last_step` forward. -/
theorem C1_production_rounds_reuse_initial_position :
    (sampling_loop stNoGlobal [[0]] false).2.1 = [[1]]
    ∧ (productionRoundsT 2 stNoGlobal [[0]]).2 = [([[0]], [[1]]), ([[0]], [[1]])]
    ∧ ([[1]] : Mat) ≠ [[0]] := by
  refine ⟨by decide, by decide, by decide⟩

/-- C8: two runs of the pipeline from the same seed, chain count and
configuration produce identical key streams from `initialize_rng_keys` and
identical sampler states (hence chains, summaries and loss histories) from
`sample`. -/
theorem C8_determinism {K : Type} (J₁ J₂ : JaxRandom K) (n₁ n₂ s₁ s₂ : ℕ)
    (st₁ st₂ : SamplerState KM KN SP FP OPT VR) (p₁ p₂ : Mat)
    (hJ : J₁ = J₂) (hn : n₁ = n₂) (hs : s₁ = s₂) (hst : st₁ = st₂)
    (hp : p₁ = p₂) :
    initialize_rng_keys J₁ n₁ s₁ = initialize_rng_keys J₂ n₂ s₂
    ∧ sample st₁ p₁ = sample st₂ p₂ := by
  subst hJ; subst hn; subst hs; subst hst; subst hp
  exact ⟨rfl, rfl⟩

theorem C8_determinism_witness :
    initialize_rng_keys toyJ 2 42 = initialize_rng_keys toyJ 2 42
    ∧ sample stNoGlobal [[0]] = sample stNoGlobal [[0]] :=
  C8_determinism toyJ toyJ 2 2 42 42 stNoGlobal stNoGlobal [[0]] [[0]]
    rfl rfl rfl rfl rfl

/-- C9: `reset` replaces both summaries by the documented empty accumulators,
is idempotent, and changes no other field of the sampler state. -/
theorem C9_reset_idempotent_frame (st : SamplerState KM KN SP FP OPT VR) :
    reset (reset st) = reset st
    ∧ (reset st).summary_training = emptyTraining st.cfg
    ∧ (reset st).summary_production = emptyProduction st.cfg
    ∧ Rect3 (reset st).summary_training.chains st.cfg.n_chains 0 st.cfg.n_dim
    ∧ (reset st).summary_training.loss_vals = []
    ∧ Rect3 (reset st).summary_production.chains st.cfg.n_chains 0 st.cfg.n_dim
    ∧ (reset st).state = st.state
    ∧ (reset st).flow_variables = st.flow_variables
    ∧ (reset st).sampler_params = st.sampler_params
    ∧ (reset st).rng_keys_mcmc = st.rng_keys_mcmc
    ∧ (reset st).rng_keys_nf = st.rng_keys_nf
    ∧ (reset st).local_sampler = st.local_sampler
    ∧ (reset st).local_autotune = st.local_autotune
    ∧ (reset st).cfg = st.cfg
    ∧ (reset st).nf_training_loop = st.nf_training_loop
    ∧ (reset st).global_sampler = st.global_sampler
    ∧ (reset st).likelihood_vec = st.likelihood_vec
    ∧ (reset st).sqrtQ = st.sqrtQ
    ∧ (reset st).log = st.log :=
  ⟨rfl, rfl, rfl, rect3_replicate_nil _ _, rfl, rect3_replicate_nil _ _,
   rfl, rfl, rfl, rfl, rfl, rfl, rfl, rfl, rfl, rfl, rfl, rfl, rfl⟩

/-- C10: the `nf_variable` constructor argument has no effect: for any
non-`None` value the constructed flow variables still equal the ones produced
by `nf_model.init`, exactly as with `None` (lines 104-105 assign
`self.variables = self.variables`). -/
theorem C10_nf_variable_no_effect {KI : Type} (cfg : Config)
    (km : KM) (kn : KN) (ki : KI)
    (mk : (Vec → ℚ) → LocalSamplerT KM SP) (sp : SP) (lk : Vec → ℚ)
    (lv : Mat → List ℚ) (ninit : KI → ℕ × ℕ → NFInit FP VR)
    (tl : TrainingLoopT KN FP OPT VR) (gs : GlobalSamplerT KN FP VR)
    (sq : ℚ → ℚ) (opt : OPT) (v : Variables VR)
    (au : Option (AutotuneT KM SP)) :
    (mkSampler cfg km kn ki mk sp lk lv ninit tl gs sq opt (some v) au).flow_variables
      = (ninit ki (1, cfg.n_dim)).variables_out
    ∧ (mkSampler cfg km kn ki mk sp lk lv ninit tl gs sq opt (some v) au).flow_variables
      = (mkSampler cfg km kn ki mk sp lk lv ninit tl gs sq opt none au).flow_variables :=
  ⟨rfl, rfl⟩

/-- C6: a run of `sample` executes exactly one local-tuning phase, then
`n_loop_training` training rounds when global sampling is enabled (none
otherwise), then `n_loop_production` production rounds, in that order. -/
theorem C6_phase_order (st : SamplerState KM KN SP FP OPT VR) (p : Mat) :
    (sample st p).log = st.log ++ [PhaseEvent.localTuning]
      ++ (if st.cfg.use_global then
            List.replicate st.cfg.n_loop_training PhaseEvent.trainingRound
          else [])
      ++ List.replicate st.cfg.n_loop_production PhaseEvent.productionRound := by
  have hp1 := local_sampler_tuning_props st st.cfg.n_local_steps p 10
  cases hg : st.cfg.use_global
  · simp only [sample, production_run]
    rw [hp1.1, hg]
    simp only [Bool.false_eq_true, if_false]
    rw [productionRoundsT_log, hp1.2.1]
    simp
  · simp only [sample, production_run, global_sampler_tuning]
    rw [hp1.1, hg]
    simp only [if_true]
    have htp := tuningRoundsT_preserves st.cfg.n_loop_training
      (local_sampler_tuning st st.cfg.n_local_steps p 10) p
    rw [productionRoundsT_log, htp.1, hp1.1, tuningRoundsT_log, hp1.2.1]

/-- C2: in a training round, the normalization variables recomputed from the
retained pool are exactly the ones used to standardize the training batch and
exactly the ones handed to the global-proposal sampler in the same round. -/
theorem C2_normalization_consistency (st : SamplerState KM KN SP FP OPT VR)
    (p : Mat) :
    ((sampling_loop st p true).2.2.trainCall.map (fun t => t.1))
      = ((sampling_loop st p true).2.2.globalCall.map (fun g => g.2.1))
    ∧ Option.elim (sampling_loop st p true).2.2.trainCall True
        (fun t =>
          t.1.base_mean = colMean t.2.1
          ∧ t.1.base_cov = covMat t.2.1
          ∧ t.2.1 = retainedPool st.cfg
              (sampling_loop st p true).2.2.localPositions
              (sampling_loop st p true).2.2.localLogProb
          ∧ t.2.2 = standardizeWith st.sqrtQ t.1 t.2.1) := by
  cases hg : st.cfg.use_global <;>
    simp [sampling_loop, trainStage, hg]

/-- C7: a production round leaves the flow parameters and the flow variables
exactly as they were on entry, and in any round the state after the global
step still carries exactly the parameter/variable pair that was passed to the
global sampler (the global step never modifies them). -/
theorem C7_flow_state_frame (st : SamplerState KM KN SP FP OPT VR) (p : Mat) :
    ((sampling_loop st p false).1.state = st.state
      ∧ (sampling_loop st p false).1.flow_variables = st.flow_variables)
    ∧ ∀ b : Bool,
        Option.elim (sampling_loop st p b).2.2.globalCall True
          (fun g =>
            (sampling_loop st p b).1.state.params = g.1
            ∧ (sampling_loop st p b).1.flow_variables = g.2.1) := by
  refine ⟨⟨(sampling_loop_false_frame st p).1,
    (sampling_loop_false_frame st p).2.1⟩, ?_⟩
  intro b
  cases hg : st.cfg.use_global <;> cases b <;>
    simp [sampling_loop, trainStage, summaryStage, hg]

theorem boolMask_map_filter {α β : Type} (f : β → ℚ) (g : ℚ → Bool) :
    ∀ (xs : List α) (ys : List β), xs.length = ys.length →
    boolMask xs ((ys.map f).map g)
      = ((xs.zip ys).filter (fun pr => g (f pr.2))).map Prod.fst := by
  intro xs
  induction xs with
  | nil => intro ys h; rfl
  | cons x xs ih =>
    intro ys h
    cases ys with
    | nil => simp at h
    | cons y ys =>
      have h' : xs.length = ys.length := by simpa using h
      by_cases hgy : g (f y) = true
      · simp [boolMask, List.filter_cons, hgy] at ih ⊢
        exact ih ys h'
      · simp at hgy
        simp [boolMask, List.filter_cons, hgy] at ih ⊢
        exact ih ys h'

/-- C3: with `keep_quantile = q > 0` the retained chains are exactly those
whose per-round maximum log-probability strictly exceeds the `q`-quantile of
all chains' maxima, and with `q = 0` every chain is retained. -/
theorem C3_quantile_filtering (positions : Tens3) (log_prob_output : Tens2)
    (q : ℚ) (hlen : positions.length = log_prob_output.length) :
    (0 < q →
      cutChains q positions log_prob_output
        = ((positions.zip log_prob_output).filter
            (fun pr =>
              decide (quantile (log_prob_output.map rowMax) q < rowMax pr.2))).map
            Prod.fst)
    ∧ cutChains 0 positions log_prob_output = positions := by
  constructor
  · intro hq
    unfold cutChains
    rw [if_pos hq]
    exact boolMask_map_filter rowMax
      (fun m => decide (quantile (log_prob_output.map rowMax) q < m))
      positions log_prob_output hlen
  · unfold cutChains
    rw [if_neg (lt_irrefl 0)]

theorem C3_quantile_filtering_witness :
    ((0 : ℚ) < 1/2 →
      cutChains (1/2) posX lpX
        = ((posX.zip lpX).filter
            (fun pr =>
              decide (quantile (lpX.map rowMax) (1/2) < rowMax pr.2))).map
            Prod.fst)
    ∧ cutChains 0 posX lpX = posX :=
  C3_quantile_filtering posX lpX (1/2) rfl

theorem boolMask_length_le {α : Type} (xs : List α) (mask : List Bool) :
    (boolMask xs mask).length ≤ xs.length := by
  calc (boolMask xs mask).length
      = ((xs.zip mask).filter (fun p => p.2)).length := by
        simp [boolMask]
    _ ≤ (xs.zip mask).length := List.length_filter_le _ _
    _ ≤ xs.length := by rw [List.length_zip]; omega

theorem cutChains_length_le (q : ℚ) (positions : Tens3) (lp : Tens2) :
    (cutChains q positions lp).length ≤ positions.length := by
  unfold cutChains
  split
  · exact boolMask_length_le _ _
  · exact le_refl _

theorem takeLastSlice_suffix {α : Type} (k : ℕ) (xs : List α) :
    takeLastSlice k xs <:+ xs := by
  unfold takeLastSlice
  split
  · exact List.suffix_refl _
  · exact List.drop_suffix _ _

theorem takeLastSlice_length {α : Type} {k : ℕ} (hk : k ≠ 0) (xs : List α) :
    (takeLastSlice k xs).length = min k xs.length := by
  simp [takeLastSlice, hk]
  omega

theorem length_flatten_le {α : Type} :
    ∀ (L : List (List α)) (k : ℕ), (∀ c ∈ L, c.length ≤ k) →
    L.flatten.length ≤ L.length * k := by
  intro L
  induction L with
  | nil => intro k _; simp
  | cons c L ih =>
    intro k h
    have hc := h c (List.mem_cons_self c L)
    have hrest := ih k (fun d hd => h d (List.mem_cons_of_mem _ hd))
    simp only [List.flatten_cons, List.length_append, List.length_cons]
    calc c.length + L.flatten.length ≤ k + L.length * k := Nat.add_le_add hc hrest
      _ = (L.length + 1) * k := by ring

/-- C4 (amended): when the pool of retained chains overflows `max_samples`
and additionally `n_chains ≤ max_samples` (so the per-chain keep count
`⌊max_samples / n_chains⌋` is at least one), the training batch holds at most
`max_samples` points and consists of the most recent
`⌊max_samples / n_chains⌋` steps of each retained chain. -/
theorem C4_sample_cap_amended (cfg : Config) (positions : Tens3) (lp : Tens2)
    (hnc : 0 < cfg.n_chains) (hcap : cfg.n_chains ≤ cfg.max_samples)
    (hrows : positions.length = cfg.n_chains)
    (hover : cfg.max_samples <
      (cutChains cfg.keep_quantile positions lp).length
        * (positions.headD []).length) :
    (retainedPool cfg positions lp).length ≤ cfg.max_samples
    ∧ retainedPool cfg positions lp
        = ((cutChains cfg.keep_quantile positions lp).map
            (takeLastSlice (cfg.max_samples / cfg.n_chains))).flatten
    ∧ ∀ c ∈ cutChains cfg.keep_quantile positions lp,
        takeLastSlice (cfg.max_samples / cfg.n_chains) c <:+ c
        ∧ (takeLastSlice (cfg.max_samples / cfg.n_chains) c).length
            = min (cfg.max_samples / cfg.n_chains) c.length := by
  have hk : cfg.max_samples / cfg.n_chains ≠ 0 := by
    have h1 : 1 ≤ cfg.max_samples / cfg.n_chains :=
      (Nat.one_le_div_iff hnc).mpr hcap
    omega
  have heq : retainedPool cfg positions lp
      = ((cutChains cfg.keep_quantile positions lp).map
          (takeLastSlice (cfg.max_samples / cfg.n_chains))).flatten := by
    unfold retainedPool
    rw [if_pos hover]
  refine ⟨?_, heq, ?_⟩
  · rw [heq]
    calc ((cutChains cfg.keep_quantile positions lp).map
            (takeLastSlice (cfg.max_samples / cfg.n_chains))).flatten.length
        ≤ ((cutChains cfg.keep_quantile positions lp).map
            (takeLastSlice (cfg.max_samples / cfg.n_chains))).length
            * (cfg.max_samples / cfg.n_chains) := by
          apply length_flatten_le
          intro c hc
          rcases List.mem_map.mp hc with ⟨d, _, rfl⟩
          rw [takeLastSlice_length hk]
          omega
      _ ≤ cfg.n_chains * (cfg.max_samples / cfg.n_chains) := by
          rw [List.length_map]
          exact Nat.mul_le_mul_right _
            (le_trans (cutChains_length_le _ _ _) (le_of_eq hrows))
      _ ≤ cfg.max_samples := by
          rw [Nat.mul_comm]
          exact Nat.div_mul_le_self _ _
  · intro c hc
    exact ⟨takeLastSlice_suffix _ _, takeLastSlice_length hk c⟩

/-- C4 counterexample: with 5 chains, 1 local step each and `max_samples = 3`,
the pool of 5 points exceeds the cap, yet `int(max_samples / n_chains) = 0`
turns the numpy slice `[:, -0:]` into the whole history, so the training
batch holds 5 > 3 points: the claim fails without the `n_chains ≤ max_samples`
proviso. -/
theorem C4_cap_violated_counterexample :
    cfgX.max_samples <
      (cutChains cfgX.keep_quantile posX lpX).length * (posX.headD []).length
    ∧ ¬ ((retainedPool cfgX posX lpX).length ≤ cfgX.max_samples) := by
  refine ⟨by decide, by decide⟩

theorem C4_sample_cap_amended_witness :
    (retainedPool cfgW posW lpW).length ≤ cfgW.max_samples
    ∧ retainedPool cfgW posW lpW
        = ((cutChains cfgW.keep_quantile posW lpW).map
            (takeLastSlice (cfgW.max_samples / cfgW.n_chains))).flatten
    ∧ ∀ c ∈ cutChains cfgW.keep_quantile posW lpW,
        takeLastSlice (cfgW.max_samples / cfgW.n_chains) c <:+ c
        ∧ (takeLastSlice (cfgW.max_samples / cfgW.n_chains) c).length
            = min (cfgW.max_samples / cfgW.n_chains) c.length :=
  C4_sample_cap_amended cfgW posW lpW (by decide) (by decide) (by decide)
    (by decide)

/-- C5: after `sample` with global sampling enabled, the training chains have
shape `(n_chains, (n_local_steps + n_global_steps) · n_loop_training, n_dim)`,
the production chains have shape
`(n_chains, (n_local_steps + n_global_steps) · n_loop_production, n_dim)`, and
the training loss history holds one row of `n_epochs` losses per training
round (the production accumulator has no loss field at all — in this
embedding `ProductionSummary` has only the four chain/acceptance fields). -/
theorem C5_summary_shapes (st : SamplerState KM KN SP FP OPT VR) (p : Mat)
    (hg : st.cfg.use_global = true)
    (hL : LocalContract st.cfg st.local_sampler)
    (hA : ∀ f, st.local_autotune = some f →
        ∀ ls k m q sp j, LocalContract st.cfg (f ls k m q sp j).2)
    (hG : GlobalContract st.cfg st.global_sampler)
    (hT : TrainContract st.nf_training_loop)
    (het : st.summary_training = emptyTraining st.cfg)
    (hep : st.summary_production = emptyProduction st.cfg) :
    Rect3 (sample st p).summary_training.chains st.cfg.n_chains
        ((st.cfg.n_local_steps + st.cfg.n_global_steps) * st.cfg.n_loop_training)
        st.cfg.n_dim
    ∧ Rect3 (sample st p).summary_production.chains st.cfg.n_chains
        ((st.cfg.n_local_steps + st.cfg.n_global_steps) * st.cfg.n_loop_production)
        st.cfg.n_dim
    ∧ (sample st p).summary_training.loss_vals.length = st.cfg.n_loop_training
    ∧ ∀ r ∈ (sample st p).summary_training.loss_vals,
        r.length = st.cfg.n_epochs := by
  have hp1 := local_sampler_tuning_props st st.cfg.n_local_steps p 10
  have hL1 := local_sampler_tuning_contract st st.cfg.n_local_steps p 10 hL hA
  set st1 := local_sampler_tuning st st.cfg.n_local_steps p 10 with hst1
  have hg1 : st1.cfg.use_global = true := by rw [hp1.1]; exact hg
  have hL1' : LocalContract st1.cfg st1.local_sampler := by rw [hp1.1]; exact hL1
  have hG1 : GlobalContract st1.cfg st1.global_sampler := by
    rw [hp1.1, hp1.2.2.2.2.1]; exact hG
  have hT1 : TrainContract st1.nf_training_loop := by
    rw [hp1.2.2.2.2.2.1]; exact hT
  have het1 : st1.summary_training = emptyTraining st.cfg := by
    rw [hp1.2.2.1]; exact het
  have hep1 : st1.summary_production = emptyProduction st.cfg := by
    rw [hp1.2.2.2.1]; exact hep
  -- all phase computations indexed by the `st.cfg` loop counts
  set stT := (tuningRoundsT st.cfg.n_loop_training st1 p).1 with hstT
  set pT := (tuningRoundsT st.cfg.n_loop_training st1 p).2.1 with hpT
  have htuneP := tuningRoundsT_preserves st.cfg.n_loop_training st1 p
  rw [← hstT] at htuneP
  have hsample : sample st p
      = (productionRoundsT st.cfg.n_loop_production stT pT).1 := by
    simp only [sample, production_run, global_sampler_tuning]
    rw [← hst1, hp1.1, hg]
    simp only [if_true]
    rw [← hstT, ← hpT, htuneP.1, hp1.1]
  -- training phase facts
  have hchains0 : Rect3 st1.summary_training.chains st1.cfg.n_chains 0
      st1.cfg.n_dim := by
    rw [het1, hp1.1]
    exact rect3_replicate_nil _ _
  have hloss0 : st1.summary_training.loss_vals.length = 0 := by
    rw [het1]; rfl
  have hlossOK0 : ∀ r ∈ st1.summary_training.loss_vals,
      r.length = st1.cfg.n_epochs := by
    rw [het1]; intro r hr; cases hr
  have htune := tuningRoundsT_props st.cfg.n_loop_training st1 p 0 0
    hg1 hL1' hG1 hT1 hchains0 hloss0 hlossOK0
  rw [← hstT, hp1.1] at htune
  -- production phase facts
  have hgT : stT.cfg.use_global = true := by rw [htuneP.1]; exact hg1
  have hLT : LocalContract stT.cfg stT.local_sampler := by
    rw [htuneP.1, htuneP.2.1]; exact hL1'
  have hGT : GlobalContract stT.cfg stT.global_sampler := by
    rw [htuneP.1, htuneP.2.2.1]; exact hG1
  have hpc0 : Rect3 stT.summary_production.chains stT.cfg.n_chains 0
      stT.cfg.n_dim := by
    rw [htune.2.2.2, hep1, htuneP.1, hp1.1]
    exact rect3_replicate_nil _ _
  have hprod := productionRoundsT_props st.cfg.n_loop_production stT pT 0
    hgT hLT hGT hpc0
  rw [htuneP.1, hp1.1] at hprod
  rw [hsample]
  refine ⟨?_, ?_, ?_, ?_⟩
  · rw [hprod.2]
    simpa [Nat.mul_comm] using htune.1
  · simpa [Nat.mul_comm] using hprod.1
  · rw [hprod.2]
    simpa using htune.2.1
  · rw [hprod.2]
    simpa using htune.2.2.1

theorem constLocal_contract : LocalContract cfgG constLocal := by
  intro k n p sp
  refine ⟨⟨rfl, ?_⟩, ⟨rfl, ?_⟩, rfl, ?_⟩ <;>
    · intro row hrow
      simp [constLocal] at hrow
      subst hrow
      simp [cfgG]

theorem constGlobal_contract : GlobalContract cfgG constGlobal := by
  intro k n fp v lh p
  refine ⟨⟨rfl, ?_⟩, ⟨rfl, ?_⟩, rfl, ?_⟩ <;>
    · intro row hrow
      simp [constGlobal] at hrow
      subst hrow
      simp [cfgG]

theorem constTrain_contract : TrainContract constTrain := by
  intro k s v fc ne bs
  simp [constTrain]

theorem C5_summary_shapes_witness :
    Rect3 (sample stG [[0]]).summary_training.chains stG.cfg.n_chains
        ((stG.cfg.n_local_steps + stG.cfg.n_global_steps)
          * stG.cfg.n_loop_training) stG.cfg.n_dim
    ∧ Rect3 (sample stG [[0]]).summary_production.chains stG.cfg.n_chains
        ((stG.cfg.n_local_steps + stG.cfg.n_global_steps)
          * stG.cfg.n_loop_production) stG.cfg.n_dim
    ∧ (sample stG [[0]]).summary_training.loss_vals.length
        = stG.cfg.n_loop_training
    ∧ ∀ r ∈ (sample stG [[0]]).summary_training.loss_vals,
        r.length = stG.cfg.n_epochs :=
  C5_summary_shapes stG [[0]] rfl constLocal_contract
    (by intro f h; simp [stG, mkSampler] at h)
    constGlobal_contract constTrain_contract rfl rfl

end Claims

end FlowMC
